import Mathlib

/-!
Verification of the safelease disk-lease program
(`src/vdsm/storage/protect/safelease.c`).

The C program stores a lease in the first 32 bytes (the *tag*) of a
512-byte sector: a 16-byte space-padded identity followed by 16 lowercase
hex digits of a 64-bit microsecond timestamp.  We embed the sector codec,
the timed-write result computation, the shared I/O buffer discipline, the
`release` operation, the `renew` self-fencing alarm, and a timed model of
one `acquire` contention round, and prove or refute the specification's
claims about them.

Bytes are modelled as natural numbers (the C code works on `char`
buffers); timestamps as natural numbers, reduced mod 2^64 where the C
code prints them through `%llx`.
-/

/-- The sentinel tag `"------FREE------0000000000000000"` (safelease.c line 20),
as a list of byte values: 6 dashes, `FREE`, 6 dashes, then 16 ASCII `'0'`. -/
def freetag : List Nat :=
  [45, 45, 45, 45, 45, 45, 70, 82, 69, 69, 45, 45, 45, 45, 45, 45] ++
    List.replicate 16 48

/-- The 16-byte identity field of the sentinel tag. -/
def freeId16 : List Nat :=
  [45, 45, 45, 45, 45, 45, 70, 82, 69, 69, 45, 45, 45, 45, 45, 45]

/-- `sametag` (line 127): `memcmp` of the first `taglen = 32` bytes. -/
def sametag (tag1 tag2 : List Nat) : Bool :=
  decide (tag1.take 32 = tag2.take 32)

/-- `isfree` (line 133): byte-for-byte comparison with the sentinel. -/
def isfree (tag : List Nat) : Bool :=
  sametag tag freetag

/-- Space-pad an identity on the right to 16 bytes, as `snprintf "%-16s"`
does for identities of at most 16 bytes (longer identities are not padded;
the minimum field width has no effect on them). -/
def padId (id : List Nat) : List Nat :=
  id ++ List.replicate (16 - id.length) 32

/-- ASCII code of the lowercase hex digit for `d < 16`, as produced by
`printf "%llx"`: `'0'`..`'9'` are 48..57, `'a'`..`'f'` are 97..102. -/
def hexDigitChar (d : Nat) : Nat :=
  if d < 10 then 48 + d else 87 + d

/-- Exactly `k` hex digit characters of `n`, zero padded, most significant
first, as produced by `printf "%0*llx"` with field width `k` for `n < 16^k`. -/
def hexChars : Nat → Nat → List Nat
  | 0, _ => []
  | k + 1, n => hexChars k (n / 16) ++ [hexDigitChar (n % 16)]

/-- `buildtag` (line 145): `snprintf(tag, 33, "%-16s%016llx", id, ts)` — the
space-padded identity followed by 16 lowercase hex digits of `ts` cast to
unsigned 64-bit, truncated to 32 bytes by the `snprintf` size bound. -/
def buildtag (id : List Nat) (ts : Nat) : List Nat :=
  (padId id ++ hexChars 16 (ts % 2 ^ 64)).take 32

/-- `sameid` (line 152): `snprintf(_id, 17, "%-16s", id)` truncates the
padded identity to 16 bytes, then `memcmp(tag, _id, 16)`. -/
def sameid (tag : List Nat) (id : List Nat) : Bool :=
  decide (tag.take 16 = (padId id).take 16)

/-- Numeric value of a hex digit character, or `none` for any byte that is
not a hex digit (`strtoull` stops there); byte 0 is the terminating NUL. -/
def hexVal (c : Nat) : Option Nat :=
  if 48 ≤ c ∧ c ≤ 57 then some (c - 48)
  else if 97 ≤ c ∧ c ≤ 102 then some (c - 87)
  else if 65 ≤ c ∧ c ≤ 70 then some (c - 55)
  else none

/-- `strtoull(s, 0, 16)` on a byte string that begins directly with hex
digits (no leading whitespace, sign or `0x`, which never occur in tags the
program itself builds): accumulate digits until the first non-digit. -/
def parseHexAcc (acc : Nat) : List Nat → Nat
  | [] => acc
  | c :: rest =>
    match hexVal c with
    | some d => parseHexAcc (16 * acc + d) rest
    | none => acc

/-- `querytag` (line 161): the identity out-parameter receives the first
16 bytes of the tag verbatim, and the timestamp is `strtoull` base 16 of
bytes 16..31. -/
def querytag (tag : List Nat) : List Nat × Nat :=
  (tag.take 16, parseHexAcc 0 ((tag.drop 16).take 16))

/-- Strip trailing spaces from a byte string (the unpadded form of an
identity; used only to state claims about padding). -/
def rstrip (l : List Nat) : List Nat :=
  (l.reverse.dropWhile (fun c => c == 32)).reverse

/- ### Hex round-trip lemmas -/

theorem hexVal_hexDigitChar {d : Nat} (h : d < 16) :
    hexVal (hexDigitChar d) = some d := by
  interval_cases d <;> rfl

theorem hexVal_isSome_of_mem_hexChars {k n : Nat} {c : Nat}
    (h : c ∈ hexChars k n) : (hexVal c).isSome := by
  induction k generalizing n with
  | zero => simp [hexChars] at h
  | succ k ih =>
    simp only [hexChars, List.mem_append, List.mem_singleton] at h
    rcases h with h | h
    · exact ih h
    · subst h
      rw [hexVal_hexDigitChar (Nat.mod_lt _ (by norm_num))]
      rfl

theorem parseHexAcc_append (xs ys : List Nat) (acc : Nat)
    (h : ∀ c ∈ xs, (hexVal c).isSome) :
    parseHexAcc acc (xs ++ ys) = parseHexAcc (parseHexAcc acc xs) ys := by
  induction xs generalizing acc with
  | nil => rfl
  | cons c rest ih =>
    have hc : (hexVal c).isSome := h c (by simp)
    obtain ⟨d, hd⟩ := Option.isSome_iff_exists.mp hc
    simp only [List.cons_append, parseHexAcc, hd]
    exact ih _ fun x hx => h x (by simp [hx])

theorem hexChars_length (k n : Nat) : (hexChars k n).length = k := by
  induction k generalizing n with
  | zero => rfl
  | succ k ih => simp [hexChars, ih]

theorem parseHexAcc_hexChars (k : Nat) :
    ∀ n acc, n < 16 ^ k → parseHexAcc acc (hexChars k n) = acc * 16 ^ k + n := by
  induction k with
  | zero =>
    intro n acc h
    interval_cases n
    simp [hexChars, parseHexAcc]
  | succ k ih =>
    intro n acc h
    have hdiv : n / 16 < 16 ^ k := by
      rw [Nat.div_lt_iff_lt_mul (by norm_num)]
      calc n < 16 ^ (k + 1) := h
        _ = 16 ^ k * 16 := by ring
    rw [hexChars, parseHexAcc_append _ _ _ (fun c hc => hexVal_isSome_of_mem_hexChars hc),
      ih (n / 16) acc hdiv]
    simp only [parseHexAcc, hexVal_hexDigitChar (Nat.mod_lt n (by norm_num))]
    have hpow : 16 ^ (k + 1) = 16 ^ k * 16 := by ring
    calc 16 * (acc * 16 ^ k + n / 16) + n % 16
        = acc * (16 ^ k * 16) + (16 * (n / 16) + n % 16) := by ring
      _ = acc * 16 ^ (k + 1) + n := by rw [← hpow]; omega

/- ### Trailing-space and padding lemmas -/

theorem dropWhile_replicate_space_append (k : Nat) (m : List Nat) :
    List.dropWhile (fun c => c == 32) (List.replicate k 32 ++ m) =
      List.dropWhile (fun c => c == 32) m := by
  induction k with
  | zero => rfl
  | succ k ih => simp [List.replicate_succ, List.dropWhile_cons, ih]

theorem rstrip_append_replicate (l : List Nat) (k : Nat) :
    rstrip (l ++ List.replicate k 32) = rstrip l := by
  unfold rstrip
  rw [List.reverse_append, List.reverse_replicate, dropWhile_replicate_space_append]

theorem rstrip_decomp (l : List Nat) :
    l = rstrip l ++ List.replicate (l.length - (rstrip l).length) 32 := by
  have hsplit := List.takeWhile_append_dropWhile (p := fun c => c == 32) (l := l.reverse)
  have htake : List.takeWhile (fun c => c == 32) l.reverse =
      List.replicate (List.takeWhile (fun c => c == 32) l.reverse).length 32 := by
    apply List.eq_replicate_of_mem
    intro b hb
    have := List.mem_takeWhile_imp hb
    simpa using this
  have hl : l = rstrip l ++ (List.takeWhile (fun c => c == 32) l.reverse).reverse := by
    conv_lhs => rw [← List.reverse_reverse l, ← hsplit]
    rw [List.reverse_append]
    rfl
  have hlen : l.length = (rstrip l).length +
      (List.takeWhile (fun c => c == 32) l.reverse).length := by
    conv_lhs => rw [hl]
    simp
  rw [htake, List.reverse_replicate] at hl
  have hK : l.length - (rstrip l).length =
      (List.takeWhile (fun c => c == 32) l.reverse).length := by omega
  rw [hK]
  exact hl

theorem rstrip_length_le (l : List Nat) : (rstrip l).length ≤ l.length := by
  conv_rhs => rw [rstrip_decomp l]
  simp

theorem padId_length {id : List Nat} (h : id.length ≤ 16) :
    (padId id).length = 16 := by
  simp [padId]
  omega

theorem padId_eq_rstrip {id : List Nat} (h : id.length ≤ 16) :
    padId id = rstrip id ++ List.replicate (16 - (rstrip id).length) 32 := by
  have hle := rstrip_length_le id
  have hK : 16 - (rstrip id).length =
      (id.length - (rstrip id).length) + (16 - id.length) := by omega
  rw [hK, List.replicate_add, ← List.append_assoc, ← rstrip_decomp id]
  rfl

theorem rstrip_padId {id : List Nat} (hns : rstrip id = id) :
    rstrip (padId id) = id := by
  unfold padId
  rw [rstrip_append_replicate, hns]

theorem buildtag_eq {id : List Nat} {ts : Nat} (h : id.length ≤ 16)
    (hts : ts < 2 ^ 64) :
    buildtag id ts = padId id ++ hexChars 16 ts := by
  unfold buildtag
  rw [Nat.mod_eq_of_lt hts]
  apply List.take_of_length_le
  simp [padId_length h, hexChars_length]

theorem buildtag_take16 {id : List Nat} {ts : Nat} (h : id.length ≤ 16)
    (hts : ts < 2 ^ 64) :
    (buildtag id ts).take 16 = padId id := by
  rw [buildtag_eq h hts]
  exact List.take_left' (padId_length h)

theorem buildtag_drop16 {id : List Nat} {ts : Nat} (h : id.length ≤ 16)
    (hts : ts < 2 ^ 64) :
    (buildtag id ts).drop 16 = hexChars 16 ts := by
  rw [buildtag_eq h hts]
  exact List.drop_left' (padId_length h)

/- ### Timed sector I/O results -/

/-- `tv2msec` (line 106): milliseconds of a `timeval`, microseconds truncated. -/
def tv2msec (sec usec : Nat) : Nat :=
  sec * 1000 + usec / 1000

/-- `withintimelimits` (line 112) on the elapsed millisecond delta between
the two `tv2msec` values: always passes when `op_max_ms ≤ 0`, otherwise
fails exactly when the delta exceeds `op_max_ms`. -/
def withintimelimits (op_max_ms : Int) (deltaMs : Nat) : Bool :=
  if op_max_ms ≤ 0 then true
  else decide ((deltaMs : Int) ≤ op_max_ms)

/-- Return value of `writetag` (line 189): `r = pwrite(...) < taglen ? -1 : 0`
with `taglen = 32`, then `-1` if `r < 0` or the deadline check fails, else
`r`.  `written` is the `pwrite` return value (`-1` on error, else the byte
count), `deltaMs` the measured duration. -/
def writetagRet (op_max_ms : Int) (written : Int) (limit : Bool)
    (deltaMs : Nat) : Int :=
  let r : Int := if written < 32 then -1 else 0
  if r < 0 ∨ (limit ∧ withintimelimits op_max_ms deltaMs = false) then -1 else r

/-- `writetimestamp` (line 206): builds a tag from the wall clock `t`,
writes it with `limit = 1`, and stores `t` into the out-parameter only
when the `writetag` result is strictly positive.  Returns the `writetag`
result paired with the final value of the `ts` out-parameter, whose prior
value is `tsOld`. -/
def writetimestampM (op_max_ms : Int) (written : Int) (deltaMs : Nat)
    (t tsOld : Nat) : Int × Nat :=
  let r := writetagRet op_max_ms written true deltaMs
  (r, if r > 0 then t else tsOld)

/- ### The shared I/O buffer -/

/-- The data flowing through the single shared 512-byte buffer `iobuf`
during one invocation: `pread` in `readtag` (line 180) fills the whole
buffer with the sector, `writetag` (line 196) overwrites only the first
`taglen = 32` bytes before writing all 512. -/
inductive BufOp where
  | read (sector : List Nat)
  | write (tag : List Nat)
deriving DecidableEq

/-- One step of the buffer: `readtag` replaces the buffer with the sector
read; `writetag` `memcpy`s the 32-byte tag over the front. -/
def bufStep (buf : List Nat) : BufOp → List Nat
  | .read s => s
  | .write tag => tag.take 32 ++ buf.drop 32

/-- Buffer contents after a sequence of operations, starting from the
zero-filled buffer `memset(iobuf, 0, 512)` of `main` (line 679). -/
def bufAfter (ops : List BufOp) : List Nat :=
  ops.foldl bufStep (List.replicate 512 0)

/-- The 512-byte image `writetag` hands to `pwrite` when the buffer holds
`buf`: the tag over the first 32 bytes, the rest of the buffer unchanged. -/
def writetagBuf (buf : List Nat) (tag : List Nat) : List Nat :=
  tag.take 32 ++ buf.drop 32

/-- The sectors read (filling the buffer) in an operation sequence. -/
def readSectors : List BufOp → List (List Nat)
  | [] => []
  | .read s :: rest => s :: readSectors rest
  | .write _ :: rest => readSectors rest

/-- The tags written in an operation sequence. -/
def writtenTags : List BufOp → List (List Nat)
  | [] => []
  | .read _ :: rest => writtenTags rest
  | .write t :: rest => t :: writtenTags rest

/- ### release -/

/-- `release` (line 350), assuming the I/O itself succeeds: without
`force`, `readtag` loads the sector into the buffer and the identity is
checked (`sameid`, returning 0 with the sector untouched on mismatch);
the sentinel is then written through the buffer.  With `force` the sector
is never read, so the buffer still holds the zeros set up by `main`.
Returns the result code and the new sector contents. -/
def releaseM (disk : List Nat) (id : List Nat) (force : Bool) :
    Int × List Nat :=
  if force then
    (1, writetagBuf (List.replicate 512 0) freetag)
  else if sameid (disk.take 32) id then
    (1, writetagBuf disk freetag)
  else
    (0, disk)

/- ### query -/

/-- The condition `query` (line 391) uses to print `FREE` rather than
`LOCKED`: `sameid(curr, freetag)`, which compares only the 16-byte
identity field of the tag against the sentinel's identity prefix. -/
def queryIsFree (tag : List Nat) : Bool :=
  sameid tag freetag

/- ### renew and its self-fencing alarm -/

/-- `timeleft_ms` (line 279): the sector timestamp `tsprev` (microseconds)
is divided down to milliseconds, and the remaining lease time is
`lease_ms - (tscurr - tsprev / 1000)` at current wall time `tscurr` (ms). -/
def timeleft_ms (lease_ms : Int) (tsprev_us : Nat) (tscurr_ms : Int) : Int :=
  lease_ms - (tscurr_ms - ((tsprev_us / 1000 : Nat) : Int))

/-- The whole seconds `renew` arms with `alarm(msleft / 1000)` (line 329). -/
def renewAlarmSecs (msleft : Int) : Nat :=
  msleft.toNat / 1000

/-- Whether the timestamp write inside `renew` is cut short by the alarm.
Modelled from the spec and POSIX `alarm`/`SIGALRM` semantics the code
relies on (lines 273-277, 305-309, 329, 338): `alarm(n)` with `n > 0`
delivers `SIGALRM` after `n` seconds and the installed handler panics,
killing the process; `alarm(0)` arms nothing.  The process aborts exactly
when an alarm was armed and the write is still in flight when it fires,
i.e. when the write duration exceeds the armed seconds. -/
def renewWriteAborted (msleft : Int) (writeDurMs : Nat) : Bool :=
  decide (0 < renewAlarmSecs msleft ∧ renewAlarmSecs msleft * 1000 < writeDurMs)

/- ### One acquire contention round, in wall-clock time -/

/-- `contend_usec` (line 231): `(2 * op_max_ms) * 1000`. -/
def contend_usec (op_max_ms : Int) : Int :=
  2 * op_max_ms * 1000

/-- `backoff_usec` (line 230): `(lease_ms + 6 * op_max_ms) * 1000`. -/
def backoff_usec (lease_ms op_max_ms : Int) : Int :=
  (lease_ms + 6 * op_max_ms) * 1000

/-- The wall-clock shape (in microseconds) of the contention phase of one
`acquire` (lines 252-267): the start of the last read before contending
(the read whose value decided the process may contend), the completion
time of its `writetimestamp` write, and the start of the confirming
re-read issued after `usleep(contend_usec)`. -/
structure AcqRound where
  preReadStart : Int
  writeEnd : Int
  confirmReadStart : Int

/-- A round obeys the protocol of `acquire`: the write follows the
pre-read; read and write each pass the `op_max_ms` deadline enforced by
`readtag`/`writetag` (`limit = 1`, lines 234, 216), so the write completes
within `2 * op_max_ms * 1000` microseconds of the pre-read start (the code
runs the write immediately after the read returns); and the confirming
read starts only after the full `contend_usec` sleep past the write. -/
def roundObeys (op_max_ms : Int) (r : AcqRound) : Prop :=
  r.preReadStart < r.writeEnd ∧
  r.writeEnd ≤ r.preReadStart + 2 * op_max_ms * 1000 ∧
  r.writeEnd + contend_usec op_max_ms ≤ r.confirmReadStart

instance (op_max_ms : Int) (r : AcqRound) : Decidable (roundObeys op_max_ms r) := by
  unfold roundObeys
  infer_instance

/-- The sector as seen by a read starting at time `t`, when its content
was `v` before the round and the only writes of the round are A's tag
`tA` completing at `eA` and B's tag `tB` completing at `eB`.  Modelled
from the spec's ordering assumption (§5): a read observes the last write
completed by the time it starts, and the device serializes sector writes. -/
def readAt2 (v tA tB : List Nat) (eA eB t : Int) : List Nat :=
  if eA ≤ t then
    if eB ≤ t then (if eA < eB then tB else tA) else tA
  else if eB ≤ t then tB else v

/- ### Claims about the sector codec -/

/-- C4 counterexample: the claim says `querytag (buildtag id ts)` yields
the identity with the space padding stripped; at identity `"A"` and
`ts = 0` the identity component is in fact the 16-byte padded field, not
the stripped one. -/
theorem querytag_buildtag_cex :
    (querytag (buildtag [65] 0)).1 ≠ [65] := by decide

/-- C4 (amended): for a valid identity (at most 16 bytes, no NUL byte, no
trailing spaces) and any 64-bit timestamp, `querytag (buildtag id ts)`
yields the identity space-padded to 16 bytes — so stripping the padding
recovers the original identity — together with the original timestamp. -/
theorem querytag_buildtag_roundtrip (id : List Nat) (ts : Nat)
    (hlen : id.length ≤ 16) (hid : rstrip id = id) (hnul : 0 ∉ id)
    (hts : ts < 2 ^ 64) :
    querytag (buildtag id ts) = (padId id, ts) ∧ rstrip (padId id) = id := by
  refine ⟨?_, rstrip_padId hid⟩
  have hts16 : ts < 16 ^ 16 := by
    have h216 : (16 : Nat) ^ 16 = 2 ^ 64 := by norm_num
    omega
  have hparse : parseHexAcc 0 (hexChars 16 ts) = ts := by
    have h := parseHexAcc_hexChars 16 ts 0 hts16
    simpa using h
  unfold querytag
  rw [buildtag_take16 hlen hts, buildtag_drop16 hlen hts,
    List.take_of_length_le (le_of_eq (hexChars_length 16 ts)), hparse]

/-- C4 witness: the amended round trip at identity `"A"`, timestamp 3. -/
theorem querytag_buildtag_roundtrip_witness :
    querytag (buildtag [65] 3) = (padId [65], 3) ∧ rstrip (padId [65]) = [65] :=
  querytag_buildtag_roundtrip [65] 3 (by decide) (by decide) (by decide) (by decide)

/-- C5 counterexample: the claim says `isfree (buildtag i t)` is false
whenever `i` is non-empty or `t ≠ 0`, but at the (non-empty) sentinel
identity `"------FREE------"` with `t = 0`, `buildtag` reproduces the
sentinel tag and `isfree` holds. -/
theorem isfree_buildtag_cex :
    isfree (buildtag freeId16 0) = true ∧ freeId16 ≠ [] := by decide

/-- C5 (amended): `isfree` of the sentinel holds, and for every identity
of at most 16 bytes and every 64-bit timestamp, `isfree (buildtag i t)`
is false whenever `i` differs from the sentinel's identity
`"------FREE------"` or `t ≠ 0`. -/
theorem isfree_buildtag_amended :
    isfree freetag = true ∧
    ∀ (i : List Nat) (t : Nat), i.length ≤ 16 → t < 2 ^ 64 →
      (i ≠ freeId16 ∨ t ≠ 0) → isfree (buildtag i t) = false := by
  refine ⟨by decide, ?_⟩
  intro i t hlen ht hne
  by_contra hcon
  rw [Bool.not_eq_false] at hcon
  have htag : buildtag i t = freetag := by
    have h1 : (buildtag i t).take 32 = freetag.take 32 := of_decide_eq_true hcon
    have h2 : (buildtag i t).length = 32 := by
      rw [buildtag_eq hlen ht]
      simp [padId_length hlen, hexChars_length]
    have h3 : freetag.length = 32 := by decide
    rwa [List.take_of_length_le (le_of_eq h2),
      List.take_of_length_le (le_of_eq h3)] at h1
  rw [buildtag_eq hlen ht] at htag
  have hfree : freetag = freeId16 ++ List.replicate 16 48 := rfl
  have hsplit := List.append_inj' (htag.trans hfree)
    (by rw [hexChars_length, List.length_replicate])
  obtain ⟨hpad, hhex⟩ := hsplit
  rcases hne with hi | htz
  · have hr : rstrip i = freeId16 := by
      have h4 : rstrip (padId i) = rstrip i := rstrip_append_replicate i _
      rw [← h4, hpad]
      decide
    have hlen2 : (rstrip i).length = 16 := by rw [hr]; decide
    have hle := rstrip_length_le i
    have hsub : i.length - (rstrip i).length = 0 := by omega
    have hdec := rstrip_decomp i
    rw [hsub] at hdec
    simp only [List.replicate, List.append_nil] at hdec
    exact hi (hdec.trans hr)
  · have hts16 : t < 16 ^ 16 := by
      have h216 : (16 : Nat) ^ 16 = 2 ^ 64 := by norm_num
      omega
    have h := parseHexAcc_hexChars 16 t 0 hts16
    rw [hhex] at h
    have hz : parseHexAcc 0 (List.replicate 16 48) = 0 := by decide
    omega

/-- C5 witness: the amended statement at identity `"A"`, timestamp 5. -/
theorem isfree_buildtag_amended_witness :
    isfree freetag = true ∧ isfree (buildtag [65] 5) = false :=
  ⟨isfree_buildtag_amended.1,
    isfree_buildtag_amended.2 [65] 5 (by decide) (by decide) (Or.inl (by decide))⟩

/-- C8: `release` without force on a sector whose identity field does not
match the caller's identity returns 0 (not-held) and performs no write:
the sector contents are unchanged. -/
theorem release_mismatch_noop (disk : List Nat) (id : List Nat)
    (h : sameid (disk.take 32) id = false) :
    releaseM disk id false = (0, disk) := by
  simp [releaseM, h]

/-- C8 witness: releasing as `"B"` a sector written by `"A"`. -/
theorem release_mismatch_noop_witness :
    releaseM (buildtag [65] 1 ++ List.replicate 480 0) [66] false =
      (0, buildtag [65] 1 ++ List.replicate 480 0) :=
  release_mismatch_noop (buildtag [65] 1 ++ List.replicate 480 0) [66] (by decide)

/-- C9: `query` decides FREE/LOCKED by `sameid` against the sentinel,
comparing only the 16-byte identity field; every tag whose identity field
is the sentinel's prefix but whose timestamp field is not all `'0'`s is
reported FREE although it is not the sentinel and `isfree` of it is false. -/
theorem query_free_label_mismatch (stamp : List Nat)
    (hlen : stamp.length = 16) (hnz : stamp ≠ List.replicate 16 48) :
    queryIsFree (freeId16 ++ stamp) = true ∧
    isfree (freeId16 ++ stamp) = false := by
  constructor
  · have h1 : (freeId16 ++ stamp).take 16 = freeId16 := List.take_left' (by decide)
    have h2 : (padId freetag).take 16 = freeId16 := by decide
    simp [queryIsFree, sameid, h1, h2]
  · have htake : (freeId16 ++ stamp).take 32 = freeId16 ++ stamp :=
      List.take_of_length_le (by rw [List.length_append, hlen]; decide)
    have hfree32 : freetag.take 32 = freetag := by decide
    have h3 : freeId16 ++ stamp ≠ freetag := by
      intro hcontra
      apply hnz
      have h4 : freeId16 ++ stamp = freeId16 ++ List.replicate 16 48 :=
        hcontra.trans rfl
      exact List.append_cancel_left h4
    simp only [isfree, sametag, htake, hfree32]
    exact decide_eq_false h3

/-- C9 witness: the tag `"------FREE------0000000000000001"`. -/
theorem query_free_label_mismatch_witness :
    queryIsFree (freeId16 ++ (List.replicate 15 48 ++ [49])) = true ∧
    isfree (freeId16 ++ (List.replicate 15 48 ++ [49])) = false :=
  query_free_label_mismatch (List.replicate 15 48 ++ [49]) (by decide) (by decide)

/-- C10: identities that differ only in trailing spaces produce the same
padded identity field, so `sameid (buildtag i ts) j` holds for every
timestamp, and in consequence a non-force `release` (and the identical
`sameid` check of `renew`, line 317) invoked with identity `j` matches a
sector written with identity `i` and overwrites it with the sentinel. -/
theorem sameid_trailing_spaces (i j : List Nat) (ts : Nat) (tail : List Nat)
    (hi : i.length ≤ 16) (hj : j.length ≤ 16) (hs : rstrip i = rstrip j)
    (hts : ts < 2 ^ 64) :
    sameid (buildtag i ts) j = true ∧
    releaseM (buildtag i ts ++ tail) j false =
      (1, writetagBuf (buildtag i ts ++ tail) freetag) := by
  have hpad : padId i = padId j := by
    rw [padId_eq_rstrip hi, padId_eq_rstrip hj, hs]
  have hblen : (buildtag i ts).length = 32 := by
    rw [buildtag_eq hi hts]
    simp [padId_length hi, hexChars_length]
  have h1 : sameid (buildtag i ts) j = true := by
    simp [sameid, buildtag_take16 hi hts,
      List.take_of_length_le (le_of_eq (padId_length hj)), hpad]
  refine ⟨h1, ?_⟩
  have hdisk : (buildtag i ts ++ tail).take 32 = buildtag i ts :=
    List.take_left' hblen
  simp [releaseM, hdisk, h1]

/-- C10 witness: identities `"A "` and `"A"` on a sector stamped 1. -/
theorem sameid_trailing_spaces_witness :
    sameid (buildtag [65, 32] 1) [65] = true ∧
    releaseM (buildtag [65, 32] 1 ++ List.replicate 480 0) [65] false =
      (1, writetagBuf (buildtag [65, 32] 1 ++ List.replicate 480 0) freetag) :=
  sameid_trailing_spaces [65, 32] [65] 1 (List.replicate 480 0)
    (by decide) (by decide) (by decide) (by decide)

/- ### Claims about the timed writes -/

/-- C3: `writetag` can only return -1 or 0, so the guard `if (r > 0)` in
`writetimestamp` (line 217) never fires: a fully successful timestamp
write (512 bytes written, deadline met, result 0) leaves the `ts`
out-parameter at its prior value 7 instead of storing the freshly written
clock value 42 — contradicting the dead assignment's evident intent and
the spec.  The first conjunct also records that `writetag`'s result is
never positive. -/
theorem writetimestamp_ts_bug :
    (∀ (o w : Int) (l : Bool) (d : Nat), writetagRet o w l d ≤ 0) ∧
    writetimestampM 5 512 0 42 7 = (0, 7) ∧ (7 : Nat) ≠ 42 := by
  refine ⟨?_, by decide, by decide⟩
  intro o w l d
  unfold writetagRet
  split <;> dsimp only <;> split <;> omega

/-- C7 counterexample: a short positional write of 100 of the 512 bytes
(with the deadline met) makes `writetag` return 0, not the -1 the claim
requires for any write of fewer than 512 bytes. -/
theorem writetag_short_write_cex :
    (100 : Int) < 512 ∧ writetagRet 5 100 true 0 ≠ -1 := by decide

/-- C7 (amended): `writetag` fails (returns -1) exactly when fewer than
`taglen = 32` bytes are written or the deadline check fails; a write of at
least 32 bytes within the deadline returns 0 even when fewer than the
full 512 bytes were written. -/
theorem writetag_short_write_amended :
    (∀ (op_max_ms written : Int) (limit : Bool) (deltaMs : Nat),
      written < 32 → writetagRet op_max_ms written limit deltaMs = -1) ∧
    (∀ (op_max_ms written : Int) (deltaMs : Nat),
      32 ≤ written → withintimelimits op_max_ms deltaMs = true →
      writetagRet op_max_ms written true deltaMs = 0) := by
  constructor
  · intro o w l d hw
    simp [writetagRet, hw]
  · intro o w d hw hwl
    have hnw : ¬ w < 32 := by omega
    simp [writetagRet, hnw, hwl]

/-- C7 witness: the amended statement at 10 and 512 bytes written. -/
theorem writetag_short_write_amended_witness :
    writetagRet 5 10 true 0 = -1 ∧ writetagRet 5 512 true 0 = 0 :=
  ⟨writetag_short_write_amended.1 5 10 true 0 (by decide),
    writetag_short_write_amended.2 5 512 0 (by decide) (by decide)⟩

/- ### Claims about the renew self-fence -/

/-- C2 counterexample: with `lease_ms = 1000`, a sector timestamp of
200000 µs and current time 700 ms, `timeleft_ms` yields `msleft = 500 > 0`;
the alarm is armed with `alarm(500 / 1000) = alarm(0)`, which arms
nothing, so a final write taking 600 ms — longer than `msleft` — completes
without any abort, contrary to the claim. -/
theorem renew_fence_cex :
    timeleft_ms 1000 200000 700 = 500 ∧ (0 : Int) < 500 ∧
    renewWriteAborted 500 600 = false ∧ (500 : Nat) < 600 := by decide

/-- C2 (amended): the alarm is armed for `floor(msleft / 1000)` seconds,
where `msleft = timeleft_ms(...)`; when `msleft ≥ 1000` this alarm fires
no later than `msleft` milliseconds after arming, so a final write that
does not complete within `msleft` milliseconds is aborted by the armed
SIGALRM handler.  When `0 < msleft < 1000`, `alarm(0)` arms nothing and
the write is not fenced. -/
theorem renew_fence_amended (lease_ms : Int) (tsprev_us : Nat)
    (tscurr_ms : Int) (writeDurMs : Nat)
    (h1 : 1000 ≤ timeleft_ms lease_ms tsprev_us tscurr_ms)
    (h2 : timeleft_ms lease_ms tsprev_us tscurr_ms < (writeDurMs : Int)) :
    renewWriteAborted (timeleft_ms lease_ms tsprev_us tscurr_ms) writeDurMs
      = true := by
  simp only [renewWriteAborted, renewAlarmSecs, decide_eq_true_eq]
  omega

/-- C2 witness: `msleft = 1500`, write duration 1600 ms. -/
theorem renew_fence_amended_witness :
    renewWriteAborted (timeleft_ms 2000 0 500) 1600 = true :=
  renew_fence_amended 2000 0 500 1600 (by decide) (by decide)

/- ### Claims about the shared buffer and the written sector -/

theorem drop_replicate_add (m k a : Nat) :
    (List.replicate (m + k) a).drop m = List.replicate k a := by
  induction m with
  | zero => simp
  | succ m ih =>
    have hmk : m + 1 + k = (m + k) + 1 := by omega
    rw [hmk, List.replicate_succ, List.drop_succ_cons, ih]

set_option maxRecDepth 8000 in
/-- C6 counterexample: `pread` in `readtag` fills the whole 512-byte
buffer with the sector, and `writetag` overwrites only the first 32
bytes; after reading a sector with the non-zero byte 49 at offset 32, the
sector image the next `writetag` writes carries that byte, so bytes
32..511 of the written sector are not all zero. -/
theorem writetag_sector_tail_cex :
    (writetagBuf
        (bufAfter [BufOp.read (List.replicate 32 65 ++ 49 :: List.replicate 479 0)])
        freetag).drop 32
      ≠ List.replicate 480 0 := by decide

/-- C6 (amended): the sector image written by `writetag` is the 32-byte
tag followed by bytes 32..511 of the buffer, which equal the
corresponding bytes of the most recently read sector (zero if nothing was
read, as `main` zero-fills the buffer); hence bytes 32..511 of every
written sector are zero provided every sector read during the invocation
was zero beyond its tag. -/
theorem writetag_sector_tail_amended (ops : List BufOp) (tag : List Nat)
    (hr : ∀ s ∈ readSectors ops, s.drop 32 = List.replicate 480 0)
    (hw : ∀ t ∈ writtenTags ops, 32 ≤ t.length)
    (htag : 32 ≤ tag.length) :
    (writetagBuf (bufAfter ops) tag).drop 32 = List.replicate 480 0 := by
  have key : ∀ (l : List BufOp) (buf : List Nat),
      (∀ s ∈ readSectors l, s.drop 32 = List.replicate 480 0) →
      (∀ t ∈ writtenTags l, 32 ≤ t.length) →
      buf.drop 32 = List.replicate 480 0 →
      (l.foldl bufStep buf).drop 32 = List.replicate 480 0 := by
    intro l
    induction l with
    | nil => intro buf _ _ hb; exact hb
    | cons op rest ih =>
      intro buf hr' hw' hb
      cases op with
      | read s =>
        simp only [List.foldl_cons, bufStep]
        refine ih s ?_ ?_ ?_
        · intro x hx; exact hr' x (by simp [readSectors, hx])
        · intro x hx; exact hw' x (by simp [writtenTags, hx])
        · exact hr' s (by simp [readSectors])
      | write t =>
        simp only [List.foldl_cons, bufStep]
        have hlen : (t.take 32).length = 32 := by
          rw [List.length_take]
          have := hw' t (by simp [writtenTags])
          omega
        refine ih _ ?_ ?_ ?_
        · intro x hx; exact hr' x (by simp [readSectors, hx])
        · intro x hx; exact hw' x (by simp [writtenTags, hx])
        · rw [List.drop_left' hlen]; exact hb
  have hbuf := key ops (List.replicate 512 0) hr hw
    (by rw [show (512 : Nat) = 32 + 480 from rfl]; exact drop_replicate_add 32 480 0)
  have hlen : (tag.take 32).length = 32 := by
    rw [List.length_take]; omega
  unfold writetagBuf
  rw [List.drop_left' hlen]
  exact hbuf

set_option maxRecDepth 8000 in
/-- C6 witness: a read of an all-zero sector followed by a tag write
still produces a zero tail. -/
theorem writetag_sector_tail_amended_witness :
    (writetagBuf
        (bufAfter [BufOp.read (List.replicate 512 0),
          BufOp.write (List.replicate 32 49)]) freetag).drop 32
      = List.replicate 480 0 :=
  writetag_sector_tail_amended
    [BufOp.read (List.replicate 512 0), BufOp.write (List.replicate 32 49)]
    freetag (by decide) (by decide) (by decide)

/- ### Claim about mutual exclusion of acquire -/

theorem readAt2_init {v tA tB : List Nat} {eA eB t : Int}
    (h : readAt2 v tA tB eA eB t = v) (h1 : v ≠ tA) (h2 : v ≠ tB) :
    t < eA ∧ t < eB := by
  unfold readAt2 at h
  by_cases c1 : eA ≤ t
  · rw [if_pos c1] at h
    by_cases c2 : eB ≤ t
    · rw [if_pos c2] at h
      by_cases c3 : eA < eB
      · rw [if_pos c3] at h
        exact absurd h.symm h2
      · rw [if_neg c3] at h
        exact absurd h.symm h1
    · rw [if_neg c2] at h
      exact absurd h.symm h1
  · rw [if_neg c1] at h
    by_cases c4 : eB ≤ t
    · rw [if_pos c4] at h
      exact absurd h.symm h2
    · exact ⟨by omega, by omega⟩

theorem readAt2_won_A {v tA tB : List Nat} {eA eB t : Int}
    (h : readAt2 v tA tB eA eB t = tA) (hAB : tA ≠ tB)
    (heA : eA ≤ t) (heB : eB ≤ t) : eB ≤ eA := by
  unfold readAt2 at h
  rw [if_pos heA, if_pos heB] at h
  by_cases c : eA < eB
  · rw [if_pos c] at h
    exact absurd h.symm hAB
  · omega

theorem readAt2_won_B {v tA tB : List Nat} {eA eB t : Int}
    (h : readAt2 v tA tB eA eB t = tB) (hAB : tA ≠ tB)
    (heA : eA ≤ t) (heB : eB ≤ t) : eA < eB := by
  unfold readAt2 at h
  rw [if_pos heA, if_pos heB] at h
  by_cases c : eA < eB
  · exact c
  · rw [if_neg c] at h
    exact absurd h hAB

/-- C1: with two processes A and B contending for the same sector in the
same contention round — each obeying the `acquire` protocol (`roundObeys`,
with its deadline-checked read and write and the `contend_usec` sleep)
and each having observed the same prior sector value `v` (neither
contender's tag) in the read that let it contend — it is impossible that
both confirming re-reads return their own tag, i.e. at most one of the
two `acquire` invocations can reach the `won` outcome (return 1, which
lines 262-267 only allow after the confirming read returned the tag that
process wrote). -/
theorem acquire_mutex (op_max_ms : Int) (A B : AcqRound) (v tA tB : List Nat)
    (hop : 0 < op_max_ms)
    (hA : roundObeys op_max_ms A) (hB : roundObeys op_max_ms B)
    (hAB : tA ≠ tB) (hvA : v ≠ tA) (hvB : v ≠ tB)
    (hrA : readAt2 v tA tB A.writeEnd B.writeEnd A.preReadStart = v)
    (hrB : readAt2 v tA tB A.writeEnd B.writeEnd B.preReadStart = v) :
    ¬(readAt2 v tA tB A.writeEnd B.writeEnd A.confirmReadStart = tA ∧
      readAt2 v tA tB A.writeEnd B.writeEnd B.confirmReadStart = tB) := by
  obtain ⟨hA1, hA2, hA3⟩ := hA
  obtain ⟨hB1, hB2, hB3⟩ := hB
  simp only [contend_usec] at hA3 hB3
  rintro ⟨hwA, hwB⟩
  obtain ⟨hpA1, hpA2⟩ := readAt2_init hrA hvA hvB
  obtain ⟨hpB1, hpB2⟩ := readAt2_init hrB hvA hvB
  have heAcA : A.writeEnd ≤ A.confirmReadStart := by omega
  have heBcA : B.writeEnd ≤ A.confirmReadStart := by omega
  have heAcB : A.writeEnd ≤ B.confirmReadStart := by omega
  have heBcB : B.writeEnd ≤ B.confirmReadStart := by omega
  have hBA := readAt2_won_A hwA hAB heAcA heBcA
  have hAB2 := readAt2_won_B hwB hAB heAcB heBcB
  omega

/-- C1 witness: a concrete pair of protocol-obeying rounds over the same
prior value, with `op_max_ms = 1`. -/
theorem acquire_mutex_witness :
    ¬(readAt2 [0] [1] [2] (1000 : Int) 500 3000 = [1] ∧
      readAt2 [0] [1] [2] (1000 : Int) 500 2500 = [2]) :=
  acquire_mutex 1 ⟨0, 1000, 3000⟩ ⟨0, 500, 2500⟩ [0] [1] [2]
    (by decide) (by decide) (by decide) (by decide) (by decide) (by decide)
    (by decide) (by decide)
